import Mathlib

/-
Shallow embedding of the core logic of FactorioUpbot.

Sources embedded:
  * src/bot.py   — `fbool`, `check_server`, `filter_duplicate_top_games`,
                   `update_top_lists`, `update_popular`
  * src/schedule.py — the drift-compensating scheduler `repeat`

Conventions of the embedding:
  * Python `None` becomes `Option.none`; a tri-state flag is `Option Bool`.
  * Epoch-second timestamps are `Int` (the code uses `int(time())` and
    integer second arithmetic throughout the cache logic).
  * Wall-clock instants in the scheduler are `ℚ` (Python `time.time()` is a
    real-valued clock; the scheduler arithmetic uses `//` = real floor).
  * A snapshot entry is reduced to the fields the embedded functions read:
    `name` (possibly absent), the player count `len(game.get('players', []))`,
    and the raw `has_password` flag (possibly absent).  `fbool` is embedded
    on the `bool`/`None` cases; the string case of the Python helper is
    unreachable for the boolean-typed inputs considered here.
  * Python dicts keyed by strings (the popularity cache) are embedded as
    functions `String → Option Int`.
-/

/-- Snapshot entry (one element of the get-games listing) reduced to the
fields read by the embedded functions. -/
structure Game where
  name : Option String
  players : Nat
  has_password : Option Bool
deriving DecidableEq

/-- Embedding of `fbool` (src/bot.py line 27) on the `bool` / `None` cases:
`fbool(b) = b`, `fbool(None) = False`. -/
def fbool : Option Bool → Bool
  | some b => b
  | none => false

/-- Python truthiness of an optional boolean (`None` and `False` are falsy). -/
def truthy (o : Option Bool) : Bool := o.getD false

/-- Classification of a notification message by the list it is appended to in
`check_server` (warnings / returned / locked / unlocked / infos). -/
inductive EventKind where
  | warning
  | returned
  | locked
  | unlocked
  | info
deriving DecidableEq

/-- One emitted notification event: its class and its message text. -/
structure Event where
  kind : EventKind
  msg : String
deriving DecidableEq

/-- Persisted per-server state `server_cfg['state']`: tri-state `listed` and
`password` fields (absent key = `none`). -/
structure ServerState where
  listed : Option Bool
  password : Option Bool
deriving DecidableEq

/-- Embedding of `check_server` (src/bot.py lines 282–338).  Returns the
written-back state, the emitted events in message order (warnings, returned,
locked, unlocked, infos), and the should-ping flag `bool(warnings)`. -/
def check_server (name : String) (state : ServerState) (game : Option Game) :
    ServerState × List Event × Bool :=
  let old_listed := state.listed
  let old_password := state.password
  let new_listed := game.isSome
  let new_password : Option Bool := game.map (fun g => fbool g.has_password)
  let lists : List String × List String × List String × List String × List String :=
    if old_listed = some true then
      if !new_listed then
        ([name ++ " is no longer listed"], [], [], [], [])
      else if truthy new_password && !truthy old_password then
        ([], [], [name ++ " is now password protected"], [], [])
      else if truthy old_password && !truthy new_password then
        ([], [], [], [name ++ " is no longer password protected"], [])
      else
        ([], [], [], [], [])
    else if old_listed = some false then
      if new_listed then
        if truthy new_password then
          ([], [], [name ++ " is back on the list password protected"], [], [])
        else
          ([], [name ++ " is back on the list"], [], [], [])
      else
        ([], [], [], [], [])
    else
      if new_listed then
        if truthy new_password then
          ([], [], [name ++ " is listed as password protected"], [], [])
        else
          ([], [], [], [], [name ++ " is listed"])
      else
        ([name ++ " is not listed"], [], [], [], [])
  match lists with
  | (warnings, returned, locked, unlocked, infos) =>
    ({ listed := some new_listed, password := new_password },
     warnings.map (fun m => Event.mk EventKind.warning m)
       ++ returned.map (fun m => Event.mk EventKind.returned m)
       ++ locked.map (fun m => Event.mk EventKind.locked m)
       ++ unlocked.map (fun m => Event.mk EventKind.unlocked m)
       ++ infos.map (fun m => Event.mk EventKind.info m),
     !warnings.isEmpty)

/-- Transition table of spec §4.3, written from the claim's words: the event
prescribed for each (old listed, presence, password delta) row, at most one
per call.  `present` is whether the match is present, `new_password` the
password flag of the match. -/
def spec_events (name : String) (old_listed old_password : Option Bool)
    (present : Bool) (new_password : Bool) : List Event :=
  if old_listed = some true then
    if !present then
      [Event.mk EventKind.warning (name ++ " is no longer listed")]
    else if new_password && !truthy old_password then
      [Event.mk EventKind.locked (name ++ " is now password protected")]
    else if truthy old_password && !new_password then
      [Event.mk EventKind.unlocked (name ++ " is no longer password protected")]
    else
      []
  else if old_listed = some false then
    if present then
      if new_password then
        [Event.mk EventKind.locked (name ++ " is back on the list password protected")]
      else
        [Event.mk EventKind.returned (name ++ " is back on the list")]
    else
      []
  else
    if present then
      if new_password then
        [Event.mk EventKind.locked (name ++ " is listed as password protected")]
      else
        [Event.mk EventKind.info (name ++ " is listed")]
    else
      [Event.mk EventKind.warning (name ++ " is not listed")]

/-- C1: for every old persisted state (tri-state `listed` × tri-state
`password`) and every current match outcome (absent, or present with any raw
`has_password` value), one call of the transition classifier `check_server`
emits exactly the events prescribed by the §4.3 table — and that list has at
most one element. -/
theorem c1_check_server_matches_table (name : String)
    (old_listed old_password : Option Bool) (game : Option Game) :
    (check_server name ⟨old_listed, old_password⟩ game).2.1 =
      spec_events name old_listed old_password game.isSome
        (truthy (game.map (fun g => fbool g.has_password))) ∧
    (check_server name ⟨old_listed, old_password⟩ game).2.1.length ≤ 1 := by
  rcases game with _ | ⟨n, p, hp⟩ <;>
    rcases old_listed with _ | (_ | _) <;>
    rcases old_password with _ | (_ | _) <;>
    first
      | exact ⟨rfl, by simp [check_server, truthy, fbool]⟩
      | (rcases hp with _ | (_ | _) <;>
          exact ⟨rfl, by simp [check_server, truthy, fbool]⟩)

/-- C2 counterexample: with old state `{listed: true, password: true}` and an
absent match, the written-back state is NOT `{listed: false, password: true}`
(the `password` field is not left unchanged). -/
theorem c2_counterexample :
    (check_server ("Foo") ⟨some true, some true⟩ none).1 ≠ ⟨some false, some true⟩ := by
  decide

/-- C2 (amended): when a tracked server whose old state has `listed = true` is
absent from the snapshot, `check_server` emits the single Warning
"is no longer listed" (and the ping flag), and the written-back state is
`{listed: false, password: unset}` — the `password` field is reset to `None`
(`state['password'] = new_password` runs unconditionally), not kept at its
old value. -/
theorem c2_amended (name : String) (p : Option Bool) :
    check_server name ⟨some true, p⟩ none =
      (⟨some false, none⟩,
       [Event.mk EventKind.warning (name ++ " is no longer listed")], true) := by
  rcases p with _ | (_ | _) <;> rfl

/-- Embedding of `skip = int((current - target) // delta) + 1`
(src/schedule.py line 19); Python float floor-division is the real floor. -/
def sched_skip (target current delta : ℚ) : ℤ :=
  ⌊(current - target) / delta⌋ + 1

/-- Embedding of `target = target + delta * skip` (src/schedule.py line 20). -/
def sched_next_target (target current delta : ℚ) : ℚ :=
  target + delta * sched_skip target current delta

/-- Embedding of `wait = target - current` (src/schedule.py line 21), the
sleep duration until the updated target. -/
def sched_wait (target current delta : ℚ) : ℚ :=
  sched_next_target target current delta - current

/-- Target time before the n-th sleep of the `repeat` loop, given the initial
target `t0` and the wall-clock instants `f n` at which the n-th action
invocation returns. -/
def nth_target (t0 delta : ℚ) (f : ℕ → ℚ) : ℕ → ℚ
  | 0 => t0
  | n + 1 => sched_next_target (nth_target t0 delta f n) (f n) delta

/-- Outcome of one awaited invocation of the scheduled action: normal return,
cancellation, or an ordinary exception. -/
inductive Outcome where
  | ok
  | cancelled
  | error (msg : String)
deriving DecidableEq

/-- Data produced by one pass of the `repeat` loop body when it continues:
the updated target, the computed sleep duration, whether an exception was
logged, and the skip count printed when `skip > 1`. -/
structure StepOut where
  target : ℚ
  wait : ℚ
  logged : Bool
  skip_report : Option ℤ
deriving DecidableEq

/-- Embedding of one iteration of the `repeat` loop body (src/schedule.py
lines 9–26): `CancelledError` is re-raised (`Except.error ()`); any other
exception is caught and logged and the body continues to the timing
arithmetic; `skip - 1` is printed when `skip > 1`. -/
def repeat_step (delta target : ℚ) (r : Outcome) (current : ℚ) : Except Unit StepOut :=
  match r with
  | Outcome.cancelled => Except.error ()
  | r =>
    let logged := match r with
      | Outcome.error _ => true
      | _ => false
    let skip := sched_skip target current delta
    Except.ok
      { target := sched_next_target target current delta
        wait := sched_wait target current delta
        logged := logged
        skip_report := if 1 < skip then some (skip - 1) else none }

/-- C3: with interval 60 and current target t0, an invocation finishing 185
seconds after t0 yields skip = floor(185/60) + 1 = 4, next target t0 + 240,
a wait of 55 seconds, and a reported skip count of skip - 1 = 3. -/
theorem c3_skip_arithmetic (t0 : ℚ) :
    sched_skip t0 (t0 + 185) 60 = 4 ∧
    repeat_step 60 t0 Outcome.ok (t0 + 185) =
      Except.ok { target := t0 + 240, wait := 55, logged := false,
                  skip_report := some 3 } := by
  have h0 : (t0 + 185 - t0) / 60 = (185 : ℚ) / 60 := by ring
  have hfl : (⌊(185 : ℚ) / 60⌋ : ℤ) = 3 := by
    rw [Int.floor_eq_iff]
    norm_num
  have hskip : sched_skip t0 (t0 + 185) 60 = 4 := by
    unfold sched_skip
    rw [h0, hfl]
    norm_num
  have hnt : sched_next_target t0 (t0 + 185) 60 = t0 + 240 := by
    unfold sched_next_target
    rw [hskip]
    push_cast
    ring
  have hw : sched_wait t0 (t0 + 185) 60 = 55 := by
    unfold sched_wait
    rw [hnt]
    ring
  refine ⟨hskip, ?_⟩
  simp [repeat_step, hskip, hnt, hw]

/-- Bound on the fractional gap the scheduler sleeps over: for a positive
factor `d`, the quantity `d * (⌊x⌋ + 1) - d * x` is strictly positive and at
most `d`. -/
theorem floor_gap_bounds (d x : ℚ) (hd : 0 < d) :
    0 < d * ((⌊x⌋ : ℚ) + 1) - d * x ∧ d * ((⌊x⌋ : ℚ) + 1) - d * x ≤ d := by
  constructor
  · have h := Int.lt_floor_add_one x
    nlinarith
  · have h := Int.floor_le x
    nlinarith

/-- C4: for every positive interval and every invocation finishing at or
after the current target, the computed sleep duration is strictly positive
and at most the interval (so invocations are never run back-to-back and
missed targets are dropped, not queued), and every successive target is the
initial target plus an integer multiple of the interval. -/
theorem c4_wait_bounds (target current delta : ℚ) (hd : 0 < delta)
    (hc : target ≤ current) :
    0 < sched_wait target current delta ∧
    sched_wait target current delta ≤ delta ∧
    ∀ (f : ℕ → ℚ) (n : ℕ), ∃ k : ℤ,
      nth_target target delta f n = target + delta * k := by
  obtain ⟨h1, h2⟩ := floor_gap_bounds delta ((current - target) / delta) hd
  have key : delta * ((current - target) / delta) = current - target := by
    field_simp
  refine ⟨?_, ?_, ?_⟩
  · unfold sched_wait sched_next_target sched_skip
    push_cast
    linarith
  · unfold sched_wait sched_next_target sched_skip
    push_cast
    linarith
  · intro f n
    induction n with
    | zero => exact ⟨0, by simp [nth_target]⟩
    | succ n ih =>
      obtain ⟨k, hk⟩ := ih
      refine ⟨k + sched_skip (nth_target target delta f n) (f n) delta, ?_⟩
      simp only [nth_target, sched_next_target, hk]
      push_cast
      ring

/-- Witness for C4 at interval 60 with the action finishing at 185. -/
theorem c4_wait_bounds_witness :
    ((0 : ℚ) < 60 ∧ (0 : ℚ) ≤ 185) ∧
    (0 < sched_wait 0 185 60 ∧
     sched_wait 0 185 60 ≤ 60 ∧
     ∀ (f : ℕ → ℚ) (n : ℕ), ∃ k : ℤ, nth_target 0 60 f n = 0 + 60 * k) :=
  ⟨⟨by norm_num, by norm_num⟩,
   c4_wait_bounds 0 185 60 (by norm_num) (by norm_num)⟩

/-- C9: in every iteration of the `repeat` loop body, a cancellation raised
by the action is re-raised (never swallowed), an ordinary exception is caught
and logged and the body continues to compute the next target and wait, and a
normal return continues without logging. -/
theorem c9_exception_handling (delta target current : ℚ) (e : String) :
    repeat_step delta target Outcome.cancelled current = Except.error () ∧
    repeat_step delta target (Outcome.error e) current =
      Except.ok { target := sched_next_target target current delta,
                  wait := sched_wait target current delta,
                  logged := true,
                  skip_report :=
                    if 1 < sched_skip target current delta then
                      some (sched_skip target current delta - 1)
                    else none } ∧
    repeat_step delta target Outcome.ok current =
      Except.ok { target := sched_next_target target current delta,
                  wait := sched_wait target current delta,
                  logged := false,
                  skip_report :=
                    if 1 < sched_skip target current delta then
                      some (sched_skip target current delta - 1)
                    else none } :=
  ⟨rfl, rfl, rfl⟩

/-- Entry of a cached top list: the fields of a snapshot entry read by the
leaderboard code plus the stamped observation time `_time`. -/
structure TopGame where
  name : Option String
  player_count : Nat
  time : Int
deriving DecidableEq

/-- Name key used by the caches: `game.get('name', 'unknown')`. -/
def gname (g : TopGame) : String := g.name.getD ("unknown")

/-- Stable insertion (descending by key) used to embed Python's stable
`list.sort(key=..., reverse=True)`: an element is placed before the first
element with a strictly smaller key, after all earlier elements with an
equal key.  A stable sort by a fixed key is extensionally unique, so this is
the function the source computes. -/
def insert_by_desc (key : TopGame → Nat) (g : TopGame) : List TopGame → List TopGame
  | [] => [g]
  | h :: t => if key h ≤ key g then g :: h :: t else h :: insert_by_desc key g t

/-- Stable descending sort by a key (embedding of
`sorted(..., key=..., reverse=True)` / `list.sort(key=..., reverse=True)`). -/
def sort_by_desc (key : TopGame → Nat) (l : List TopGame) : List TopGame :=
  l.foldr (insert_by_desc key) []

/-- Membership is preserved by stable insertion. -/
theorem mem_insert_by_desc (key : TopGame → Nat) (x g : TopGame) (l : List TopGame) :
    x ∈ insert_by_desc key g l ↔ x = g ∨ x ∈ l := by
  induction l with
  | nil => simp [insert_by_desc]
  | cons h t ih =>
    by_cases hc : key h ≤ key g
    · simp [insert_by_desc, hc]
    · simp [insert_by_desc, hc, ih]
      tauto

/-- Stable insertion preserves descending sortedness. -/
theorem pairwise_insert_by_desc (key : TopGame → Nat) (g : TopGame) (l : List TopGame)
    (h : List.Pairwise (fun a b => key b ≤ key a) l) :
    List.Pairwise (fun a b => key b ≤ key a) (insert_by_desc key g l) := by
  induction l with
  | nil => simp [insert_by_desc]
  | cons hd t ih =>
    rw [insert_by_desc]
    rcases h with _ | ⟨hhd, ht⟩
    by_cases hc : key hd ≤ key g
    · rw [if_pos hc]
      refine List.Pairwise.cons ?_ (List.Pairwise.cons hhd ht)
      intro x hx
      rcases List.mem_cons.mp hx with rfl | hx'
      · exact hc
      · exact le_trans (hhd x hx') hc
    · rw [if_neg hc]
      refine List.Pairwise.cons ?_ (ih ht)
      intro x hx
      rcases (mem_insert_by_desc key x g t).mp hx with rfl | hx'
      · exact le_of_not_le hc
      · exact hhd x hx'

/-- The stable descending sort is sorted (non-strictly) by its key. -/
theorem pairwise_sort_by_desc (key : TopGame → Nat) (l : List TopGame) :
    List.Pairwise (fun a b => key b ≤ key a) (sort_by_desc key l) := by
  induction l with
  | nil => exact List.Pairwise.nil
  | cons g t ih => exact pairwise_insert_by_desc key g _ ih

/-- Recursive core of `filter_duplicate_top_games` (src/bot.py lines 340–357):
`listed` is the per-name history of recorded timestamps (`{}` at the start,
key absent = `[]`).  An entry whose name key already has a recorded timestamp
less than 12 hours away is marked for removal; otherwise its timestamp is
recorded.  Removing the marked indices in reverse order at the end of the
Python function equals keeping the unmarked entries in scan order. -/
def dedup_go : List TopGame → (String → List Int) → List TopGame
  | [], _ => []
  | g :: rest, listed =>
    if listed (gname g) = [] then
      g :: dedup_go rest (fun m => if m = gname g then [g.time] else listed m)
    else if (listed (gname g)).any (fun t => decide (|t - g.time| < 60 * 60 * 12)) then
      dedup_go rest listed
    else
      g :: dedup_go rest
        (fun m => if m = gname g then listed (gname g) ++ [g.time] else listed m)

/-- Embedding of `filter_duplicate_top_games` (src/bot.py lines 340–357). -/
def filter_duplicate_top_games (games : List TopGame) : List TopGame :=
  dedup_go games (fun _ => [])

/-- Embedding of the top-20 extraction of `update_top_lists` (src/bot.py
lines 489–494): sort the snapshot descending by player count, take the first
20, stamp each with the tick time. -/
def top_games (games : List Game) (check_time : Int) : List TopGame :=
  ((sort_by_desc (fun g => g.player_count)
      (games.map (fun g => TopGame.mk g.name g.players 0))).take 20).map
    (fun g => TopGame.mk g.name g.player_count check_time)

/-- Embedding of the per-window update of `update_top_lists` (src/bot.py
lines 504–509): keep cached entries with `_time` at or after the cutoff,
append the stamped top-20, re-sort descending by player count, deduplicate,
truncate to 20. -/
def update_window (cutoff : Int) (tg : List TopGame) (top_list : List TopGame) :
    List TopGame :=
  (filter_duplicate_top_games
    (sort_by_desc (fun g => g.player_count)
      ((top_list.filter (fun g => decide (cutoff ≤ g.time))) ++ tg))).take 20

/-- The five cached window lists (`top_lists_cache['servers']`). -/
structure TopLists where
  day : List TopGame
  week : List TopGame
  month : List TopGame
  year : List TopGame
  all : List TopGame
deriving DecidableEq

/-- Embedding of `update_top_lists` (src/bot.py lines 489–514): the five
windows updated with their cutoffs. -/
def update_top_lists (games : List Game) (check_time : Int) (c : TopLists) : TopLists :=
  { day := update_window (check_time - 60 * 60 * 24) (top_games games check_time) c.day
    week := update_window (check_time - 60 * 60 * 24 * 7) (top_games games check_time) c.week
    month := update_window (check_time - 60 * 60 * 24 * 30) (top_games games check_time) c.month
    year := update_window (check_time - 60 * 60 * 24 * 365) (top_games games check_time) c.year
    all := update_window 0 (top_games games check_time) c.all }

/-- Two cache entries are far apart when an equal name key forces their
observation times to be at least 12 hours apart. -/
def FarApart (a b : TopGame) : Prop :=
  gname a = gname b → 60 * 60 * 12 ≤ |a.time - b.time|

/-- The dedup scan only removes entries: its output is a sublist of its
input (in scan order). -/
theorem dedup_go_sublist (games : List TopGame) (listed : String → List Int) :
    (dedup_go games listed).Sublist games := by
  induction games generalizing listed with
  | nil => exact List.Sublist.refl _
  | cons g rest ih =>
    rw [dedup_go]
    by_cases h1 : listed (gname g) = []
    · rw [if_pos h1]
      exact List.Sublist.cons₂ g (ih _)
    · rw [if_neg h1]
      by_cases h2 :
          (listed (gname g)).any (fun t => decide (|t - g.time| < 60 * 60 * 12)) = true
      · rw [if_pos h2]
        exact List.Sublist.cons g (ih _)
      · rw [if_neg h2]
        exact List.Sublist.cons₂ g (ih _)

/-- Invariant of the dedup scan: every kept entry is at least 12 hours away
from every timestamp already recorded for its name key, and the kept entries
are pairwise far apart. -/
theorem dedup_go_invariant (games : List TopGame) (listed : String → List Int) :
    (∀ x ∈ dedup_go games listed, ∀ t ∈ listed (gname x), 60 * 60 * 12 ≤ |t - x.time|) ∧
    List.Pairwise FarApart (dedup_go games listed) := by
  induction games generalizing listed with
  | nil =>
    constructor
    · intro x hx
      exact absurd hx (List.not_mem_nil x)
    · exact List.Pairwise.nil
  | cons g rest ih =>
    rw [dedup_go]
    by_cases h1 : listed (gname g) = []
    · rw [if_pos h1]
      obtain ⟨iha, ihb⟩ := ih (fun m => if m = gname g then [g.time] else listed m)
      constructor
      · intro x hx t ht
        rcases List.mem_cons.mp hx with rfl | hx'
        · rw [h1] at ht
          exact absurd ht (List.not_mem_nil t)
        · refine iha x hx' t ?_
          by_cases hn : gname x = gname g
          · rw [hn, h1] at ht
            exact absurd ht (List.not_mem_nil t)
          · simpa [hn] using ht
      · refine List.Pairwise.cons ?_ ihb
        intro x hx hname
        exact iha x hx g.time (by simp [← hname])
    · rw [if_neg h1]
      by_cases h2 :
          (listed (gname g)).any (fun t => decide (|t - g.time| < 60 * 60 * 12)) = true
      · rw [if_pos h2]
        exact ih listed
      · rw [if_neg h2]
        obtain ⟨iha, ihb⟩ :=
          ih (fun m => if m = gname g then listed (gname g) ++ [g.time] else listed m)
        have hfar : ∀ t ∈ listed (gname g), 60 * 60 * 12 ≤ |t - g.time| := by
          intro t ht
          by_contra hlt
          exact h2 (List.any_eq_true.mpr ⟨t, ht, by simpa using lt_of_not_le hlt⟩)
        constructor
        · intro x hx t ht
          rcases List.mem_cons.mp hx with rfl | hx'
          · exact hfar t ht
          · refine iha x hx' t ?_
            by_cases hn : gname x = gname g
            · show t ∈ (if gname x = gname g then listed (gname g) ++ [g.time]
                  else listed (gname x))
              rw [if_pos hn]
              exact List.mem_append_left _ (hn ▸ ht)
            · simpa [hn] using ht
        · refine List.Pairwise.cons ?_ ihb
          intro x hx hname
          refine iha x hx g.time ?_
          show g.time ∈ (if gname x = gname g then listed (gname g) ++ [g.time]
              else listed (gname x))
          rw [if_pos hname.symm]
          exact List.mem_append_right _ (List.mem_singleton_self _)

/-- On a list whose entries are pairwise far apart and far from everything
already recorded, the dedup scan keeps everything. -/
theorem dedup_go_eq_self :
    ∀ (games : List TopGame) (listed : String → List Int),
      (∀ x ∈ games, ∀ t ∈ listed (gname x), 60 * 60 * 12 ≤ |t - x.time|) →
      List.Pairwise FarApart games →
      dedup_go games listed = games := by
  intro games
  induction games with
  | nil => intro listed _ _; rfl
  | cons g rest ih =>
    intro listed ha hb
    have hbtail : List.Pairwise FarApart rest := List.Pairwise.of_cons hb
    have hg : ∀ x ∈ rest, FarApart g x := fun x hx => List.rel_of_pairwise_cons hb hx
    by_cases h1 : listed (gname g) = []
    · rw [dedup_go, if_pos h1]
      congr 1
      refine ih _ ?_ hbtail
      intro x hx t ht
      by_cases hn : gname x = gname g
      · have hteq : t = g.time := by simpa [hn] using ht
        subst hteq
        exact hg x hx (by rw [hn])
      · exact ha x (List.mem_cons_of_mem g hx) t (by simpa [hn] using ht)
    · have hany :
          (listed (gname g)).any (fun t => decide (|t - g.time| < 60 * 60 * 12)) = false := by
        rw [List.any_eq_false]
        intro t ht
        simp only [decide_eq_true_eq, not_lt]
        exact ha g (List.mem_cons_self g rest) t ht
      rw [dedup_go, if_neg h1, if_neg (by rw [hany]; simp)]
      congr 1
      refine ih _ ?_ hbtail
      intro x hx t ht
      by_cases hn : gname x = gname g
      · have ht' : t ∈ listed (gname g) ++ [g.time] := by simpa [hn] using ht
        rcases List.mem_append.mp ht' with h | h
        · exact ha x (List.mem_cons_of_mem g hx) t (by rwa [hn])
        · have hteq : t = g.time := by simpa using h
          subst hteq
          exact hg x hx (by rw [hn])
      · exact ha x (List.mem_cons_of_mem g hx) t (by simpa [hn] using ht)

/-- C7: the dedup scan is idempotent — applying it to its own output removes
nothing further. -/
theorem c7_dedup_idempotent (games : List TopGame) :
    filter_duplicate_top_games (filter_duplicate_top_games games) =
      filter_duplicate_top_games games := by
  refine dedup_go_eq_self _ _ ?_ (dedup_go_invariant games (fun _ => [])).2
  intro x _ t ht
  exact absurd ht (List.not_mem_nil t)

/-- Reference dedup scan written from the claim's words (spec §4.5): scan
the list in order, remembering the entries kept so far; an entry is removed
exactly when some previously kept entry with the same name key has a
timestamp less than 12 hours away, and is otherwise kept and its timestamp
becomes recorded.  Removal only ever points back at an entry kept earlier in
scan order, so the earliest-in-scan-order instance of each within-12h
cluster is kept and the later ones are dropped. -/
def spec_dedup_go : List TopGame → List TopGame → List TopGame
  | [], _ => []
  | g :: rest, kept =>
    if kept.any (fun k => decide (gname k = gname g) &&
        decide (|k.time - g.time| < 60 * 60 * 12)) then
      spec_dedup_go rest kept
    else
      g :: spec_dedup_go rest (kept ++ [g])

/-- Reference dedup scan started with nothing recorded. -/
def spec_dedup (l : List TopGame) : List TopGame := spec_dedup_go l []

/-- Testing the recorded timestamps of one name key equals testing the kept
entries carrying that name key. -/
theorem any_recorded_eq_any_kept (g : TopGame) (p : Int → Bool)
    (kept : List TopGame) :
    ((kept.filter (fun k => decide (gname k = gname g))).map
        (fun k => k.time)).any p =
      kept.any (fun k => decide (gname k = gname g) && p k.time) := by
  induction kept with
  | nil => rfl
  | cons k ks ih =>
    by_cases hk : gname k = gname g
    · simp [List.filter_cons, hk, ih]
    · simp [List.filter_cons, hk, ih]

/-- Recording one kept entry preserves the correspondence between the source
scan's per-name timestamp history and the reference scan's kept list. -/
theorem history_invariant_update (g : TopGame) (kept : List TopGame)
    (listed : String → List Int)
    (h : ∀ n, listed n =
      (kept.filter (fun k => decide (gname k = n))).map (fun k => k.time))
    (n : String) :
    (if n = gname g then listed (gname g) ++ [g.time] else listed n) =
      ((kept ++ [g]).filter (fun k => decide (gname k = n))).map
        (fun k => k.time) := by
  rw [List.filter_append, List.map_append]
  by_cases hn : n = gname g
  · subst hn
    rw [if_pos rfl, h (gname g)]
    simp [List.filter_cons]
  · rw [if_neg hn, h n]
    simp [List.filter_cons, Ne.symm hn]

/-- The source dedup scan equals the reference scan whenever the per-name
history records exactly the timestamps of the entries kept so far. -/
theorem dedup_go_eq_spec_go (games : List TopGame) :
    ∀ (listed : String → List Int) (kept : List TopGame),
      (∀ n, listed n =
        (kept.filter (fun k => decide (gname k = n))).map (fun k => k.time)) →
      dedup_go games listed = spec_dedup_go games kept := by
  induction games with
  | nil => intro listed kept _; rfl
  | cons g rest ih =>
    intro listed kept h
    have hbridge :
        (listed (gname g)).any (fun t => decide (|t - g.time| < 60 * 60 * 12)) =
          kept.any (fun k => decide (gname k = gname g) &&
            decide (|k.time - g.time| < 60 * 60 * 12)) := by
      rw [h (gname g)]
      exact any_recorded_eq_any_kept g (fun t => decide (|t - g.time| < 60 * 60 * 12)) kept
    rw [dedup_go, spec_dedup_go]
    by_cases h1 : listed (gname g) = []
    · rw [if_pos h1]
      have hfalse : kept.any (fun k => decide (gname k = gname g) &&
          decide (|k.time - g.time| < 60 * 60 * 12)) = false := by
        rw [← hbridge, h1]
        rfl
      rw [if_neg (by rw [hfalse]; simp)]
      congr 1
      refine ih _ _ ?_
      intro n
      have hupd := history_invariant_update g kept listed h n
      rw [h1] at hupd
      simpa using hupd
    · rw [if_neg h1]
      by_cases h2 :
          (listed (gname g)).any (fun t => decide (|t - g.time| < 60 * 60 * 12)) = true
      · rw [if_pos h2, if_pos (by rw [← hbridge]; exact h2)]
        exact ih listed kept h
      · rw [if_neg h2, if_neg (by rw [← hbridge]; exact h2)]
        congr 1
        exact ih _ _ (history_invariant_update g kept listed h)

/-- C6: after a tick's leaderboard update every cached window list is
pairwise far apart (no two entries with the same name key have observation
times within 12 hours of each other); moreover the dedup scan computes
exactly the reference scan of the claim's words — it removes exactly the
entries for which some previously recorded (kept earlier in scan order)
same-name timestamp is less than 12 hours away, keeping the
earliest-in-scan-order instance of each within-12h cluster — and its output
is a sublist of its input that is pairwise far apart. -/
theorem c6_windows_no_close_duplicates (games : List Game) (check_time : Int)
    (c : TopLists) :
    (List.Pairwise FarApart (update_top_lists games check_time c).day ∧
     List.Pairwise FarApart (update_top_lists games check_time c).week ∧
     List.Pairwise FarApart (update_top_lists games check_time c).month ∧
     List.Pairwise FarApart (update_top_lists games check_time c).year ∧
     List.Pairwise FarApart (update_top_lists games check_time c).all) ∧
    ∀ l : List TopGame,
      filter_duplicate_top_games l = spec_dedup l ∧
      (filter_duplicate_top_games l).Sublist l ∧
      List.Pairwise FarApart (filter_duplicate_top_games l) := by
  constructor
  · refine ⟨?_, ?_, ?_, ?_, ?_⟩ <;>
      exact List.Pairwise.sublist (List.take_sublist _ _)
        (dedup_go_invariant _ _).2
  · intro l
    exact ⟨dedup_go_eq_spec_go l (fun _ => []) [] (fun n => rfl),
      dedup_go_sublist l _, (dedup_go_invariant l _).2⟩

/-- C5 counterexample: a tick whose snapshot holds two distinct servers with
equal player counts produces a window list that is NOT strictly descending
by player count. -/
theorem c5_counterexample :
    ¬ List.Pairwise (fun a b : TopGame => b.player_count < a.player_count)
      (update_top_lists
        [Game.mk (some ("A")) 5 none, Game.mk (some ("B")) 5 none] 100
        (TopLists.mk [] [] [] [] [])).day := by
  decide

/-- C5 (amended): after every tick's leaderboard update, each of the five
cached window lists has length at most 20 and is sorted in non-increasing
(descending, ties allowed) order of player count. -/
theorem c5_windows_bounded_sorted (games : List Game) (check_time : Int)
    (c : TopLists) :
    ((update_top_lists games check_time c).day.length ≤ 20 ∧
      List.Pairwise (fun a b : TopGame => b.player_count ≤ a.player_count)
        (update_top_lists games check_time c).day) ∧
    ((update_top_lists games check_time c).week.length ≤ 20 ∧
      List.Pairwise (fun a b : TopGame => b.player_count ≤ a.player_count)
        (update_top_lists games check_time c).week) ∧
    ((update_top_lists games check_time c).month.length ≤ 20 ∧
      List.Pairwise (fun a b : TopGame => b.player_count ≤ a.player_count)
        (update_top_lists games check_time c).month) ∧
    ((update_top_lists games check_time c).year.length ≤ 20 ∧
      List.Pairwise (fun a b : TopGame => b.player_count ≤ a.player_count)
        (update_top_lists games check_time c).year) ∧
    ((update_top_lists games check_time c).all.length ≤ 20 ∧
      List.Pairwise (fun a b : TopGame => b.player_count ≤ a.player_count)
        (update_top_lists games check_time c).all) := by
  refine ⟨⟨?_, ?_⟩, ⟨?_, ?_⟩, ⟨?_, ?_⟩, ⟨?_, ?_⟩, ?_, ?_⟩ <;>
    first
      | exact List.length_take_le _ _
      | exact List.Pairwise.sublist
          ((List.take_sublist _ _).trans (dedup_go_sublist _ _))
          (pairwise_sort_by_desc _ _)

/-- Embedding of one step of the refresh loop of `update_popular`
(src/bot.py lines 534–536): a game with at least 10 players sets the record
of its name key (`game.get('name', 'unknown')`) to the tick time. -/
def refresh_popular (check_time : Int) (cache : String → Option Int) (g : Game) :
    String → Option Int :=
  if 10 ≤ g.players then
    fun n => if n = g.name.getD ("unknown") then some check_time else cache n
  else
    cache

/-- Embedding of `update_popular` (src/bot.py lines 533–546): refresh the
records of games with at least 10 players to the tick time, then evict every
record whose timestamp is strictly below `check_time - 12h`. -/
def update_popular (games : List Game) (check_time : Int)
    (cache : String → Option Int) : String → Option Int :=
  fun n =>
    match games.foldl (refresh_popular check_time) cache n with
    | some t => if t < check_time - 60 * 60 * 12 then none else some t
    | none => none

/-- Evaluation of `update_popular` at a key whose refreshed record is known:
only the eviction test remains. -/
theorem update_popular_eval (games : List Game) (check_time : Int)
    (cache : String → Option Int) (n : String) (t : Int)
    (hf : games.foldl (refresh_popular check_time) cache n = some t) :
    update_popular games check_time cache n =
      if t < check_time - 60 * 60 * 12 then none else some t := by
  unfold update_popular
  rw [hf]

/-- The refresh loop leaves a record untouched when no qualifying game has
its name key. -/
theorem foldl_refresh_untouched (games : List Game) (check_time : Int)
    (cache : String → Option Int) (n : String)
    (h : ∀ g ∈ games, 10 ≤ g.players → g.name.getD ("unknown") ≠ n) :
    games.foldl (refresh_popular check_time) cache n = cache n := by
  induction games generalizing cache with
  | nil => rfl
  | cons g rest ih =>
    rw [List.foldl_cons, ih _ (fun x hx => h x (List.mem_cons_of_mem g hx))]
    unfold refresh_popular
    by_cases hp : 10 ≤ g.players
    · rw [if_pos hp]
      have hne := h g (List.mem_cons_self g rest) hp
      simp [Ne.symm hne]
    · rw [if_neg hp]

/-- The refresh loop sets a record to the tick time when some qualifying
game has its name key (or the record already held the tick time). -/
theorem foldl_refresh_set (games : List Game) (check_time : Int)
    (cache : String → Option Int) (n : String)
    (h : cache n = some check_time ∨
      ∃ g ∈ games, 10 ≤ g.players ∧ g.name.getD ("unknown") = n) :
    games.foldl (refresh_popular check_time) cache n = some check_time := by
  induction games generalizing cache with
  | nil =>
    rcases h with h | ⟨g, hg, _⟩
    · exact h
    · exact absurd hg (List.not_mem_nil g)
  | cons g rest ih =>
    rw [List.foldl_cons]
    apply ih
    rcases h with h | ⟨g', hg', hp', hn'⟩
    · left
      unfold refresh_popular
      by_cases hp : 10 ≤ g.players
      · rw [if_pos hp]
        by_cases he : n = g.name.getD ("unknown") <;> simp [he, h]
      · rw [if_neg hp]
        exact h
    · rcases List.mem_cons.mp hg' with rfl | hmem
      · left
        unfold refresh_popular
        rw [if_pos hp', if_pos hn'.symm]
      · right
        exact ⟨g', hmem, hp', hn'⟩

/-- C8: a record refreshed at tick time t (by some qualifying game) and not
refreshed by the next tick is still present after the eviction step of a
tick at t + 12h − 1s, and absent after the eviction step of a tick at
t + 12h + 1s — eviction removes exactly the records with timestamp strictly
below the tick time minus 12 hours. -/
theorem c8_eviction_boundary (t : Int) (cache : String → Option Int) (n : String)
    (games1 games2 : List Game)
    (h1 : ∃ g ∈ games1, 10 ≤ g.players ∧ g.name.getD ("unknown") = n)
    (h2 : ∀ g ∈ games2, 10 ≤ g.players → g.name.getD ("unknown") ≠ n) :
    update_popular games2 (t + (60 * 60 * 12 - 1)) (update_popular games1 t cache) n
      = some t ∧
    update_popular games2 (t + (60 * 60 * 12 + 1)) (update_popular games1 t cache) n
      = none := by
  have hset : update_popular games1 t cache n = some t := by
    rw [update_popular_eval games1 t cache n t
        (foldl_refresh_set games1 t cache n (Or.inr h1)),
      if_neg (by omega)]
  constructor
  · rw [update_popular_eval games2 _ _ n t
        (by rw [foldl_refresh_untouched games2 _ _ n h2, hset]),
      if_neg (by omega)]
  · rw [update_popular_eval games2 _ _ n t
        (by rw [foldl_refresh_untouched games2 _ _ n h2, hset]),
      if_pos (by omega)]

/-- Witness for C8: a single game named "A" with 10 players refreshed at
tick time 0; the record survives a tick at 43199 and is evicted at 43201. -/
theorem c8_eviction_boundary_witness :
    ((∃ g ∈ [Game.mk (some ("A")) 10 none], 10 ≤ g.players ∧
        g.name.getD ("unknown") = "A") ∧
     (∀ g ∈ ([] : List Game), 10 ≤ g.players → g.name.getD ("unknown") ≠ "A")) ∧
    (update_popular [] (0 + (60 * 60 * 12 - 1))
        (update_popular [Game.mk (some ("A")) 10 none] 0 (fun _ => none)) "A"
      = some 0 ∧
     update_popular [] (0 + (60 * 60 * 12 + 1))
        (update_popular [Game.mk (some ("A")) 10 none] 0 (fun _ => none)) "A"
      = none) :=
  ⟨⟨by simp, by simp⟩,
   c8_eviction_boundary 0 (fun _ => none) ("A") _ _ (by simp) (by simp)⟩

/-- C10: a snapshot entry lacking a name is keyed under the literal string
"unknown" in both caches — the dedup scan leaves no two nameless entries
with times within 12 hours of each other (they collide on the same key), and
any nameless entry with at least 10 players writes the single popularity
record keyed "unknown". -/
theorem c10_nameless_keyed_unknown (l : List TopGame) (games : List Game)
    (t : Int) (cache : String → Option Int)
    (h : ∃ g ∈ games, g.name = none ∧ 10 ≤ g.players) :
    List.Pairwise
      (fun a b : TopGame =>
        a.name = none → b.name = none → 60 * 60 * 12 ≤ |a.time - b.time|)
      (filter_duplicate_top_games l) ∧
    update_popular games t cache ("unknown") = some t := by
  constructor
  · refine ((dedup_go_invariant l (fun _ => [])).2).imp ?_
    intro a b hfar ha hb
    exact hfar (by rw [gname, gname, ha, hb])
  · obtain ⟨g, hg, hname, hp⟩ := h
    unfold update_popular
    rw [foldl_refresh_set games t cache ("unknown")
      (Or.inr ⟨g, hg, hp, by rw [hname]; rfl⟩)]
    simp only []
    rw [if_neg (by omega)]

/-- Witness for C10: a single nameless game with 10 players at tick time 5. -/
theorem c10_nameless_keyed_unknown_witness :
    (∃ g ∈ [Game.mk none 10 none], g.name = none ∧ 10 ≤ g.players) ∧
    (List.Pairwise
      (fun a b : TopGame =>
        a.name = none → b.name = none → 60 * 60 * 12 ≤ |a.time - b.time|)
      (filter_duplicate_top_games []) ∧
     update_popular [Game.mk none 10 none] 5 (fun _ => none) ("unknown") = some 5) :=
  ⟨by simp,
   c10_nameless_keyed_unknown [] [Game.mk none 10 none] 5 (fun _ => none) (by simp)⟩
